import Mathlib

/-!
Verification of the booking script `book_badminton_courts.py`.

The script's pure decision logic is embedded shallowly:
* HTTP / HTML scraping collaborators are modelled as inputs (lists of parsed
  items, association lists for Python `dict`s, oracles `Nat → String` for
  `strftime` of `today + i days`).
* Python `dict`s are association lists `List (String × _)` with distinct keys
  (`dict.get` is `dictGet`, falsy tests handle both `None` and empty).
* Side effects (HTTP booking posts, calendar inserts/updates) become explicit
  action values returned in program order.
* `datetime.now()` is the explicit parameter `today`; `HH:MM` strings are
  parsed/formatted exactly as `strptime`/`strftime` with `%H:%M` do on the
  script's inputs (two-digit, zero-padded fields, hour arithmetic mod 24).
-/

namespace Badminton

/-- `dict.get k` on an association list: first binding for `k`, if any. -/
def dictGet {α : Type} (m : List (String × α)) (k : String) : Option α :=
  match m with
  | [] => none
  | (k', v) :: rest => if k' = k then some v else dictGet rest k

/-- One parsed `book-item` div of the venue's free-courts HTML fragment:
the `name` attribute of its `input`, and whether its class list contains
`last-free-lane` (source lines 66-74). -/
structure BookItem where
  name : String
  lastFreeLane : Bool
deriving DecidableEq

/-- The loop body of `get_available_slots` (lines 68-79): keep items whose
slot name is in the requested `time_slots`, renaming a last-free-lane item
to `"{name} (last)"`, in HTML order. -/
def collectSlots (items : List BookItem) (time_slots : List String) : List String :=
  items.filterMap fun it =>
    if it.name ∈ time_slots then
      some (if it.lastFreeLane then it.name ++ " (last)" else it.name)
    else none

/-- `get_available_slots(date, time_slots)` (lines 50-81), with the venue's
HTTP response already parsed into `items`.  The returned dict has the single
key `date` when any slot was collected, and is empty otherwise. -/
def get_available_slots (date : String) (time_slots : List String)
    (items : List BookItem) : List (String × List String) :=
  if (collectSlots items time_slots).isEmpty then []
  else [(date, collectSlots items time_slots)]

/-- An effect of the reconciliation engine, in program order: a call to the
Booking Submitter `book_time_slots` with the date and slot list, or a call to
the Calendar Mirror `generate_calendar_event` for a date. -/
inductive ReconAction
  | book (date : String) (slots : List String)
  | calendar (date : String)
deriving DecidableEq

/-- The date an action refers to. -/
def reconDate : ReconAction → String
  | ReconAction.book d _ => d
  | ReconAction.calendar d => d

/-- The list-comprehension of line 129-131: slots whose booked count is
below `num_of_courts`, in dict order. -/
def bookableOf (time_slots : List (String × Nat)) (num_of_courts : Nat) : List String :=
  (time_slots.filter fun p => p.2 < num_of_courts).map Prod.fst

/-- One iteration of the loop of `check_book_time_slots` (lines 128-138) for
the `booked` entry `(date, time_slots)`: `if not availability.get(date)`
skips on a missing key or an empty list; otherwise the any-match gate fires
the submission of the full bookable list followed by the calendar upsert. -/
def perDateActions (availability : List (String × List String)) (n : Nat)
    (date : String) (time_slots : List (String × Nat)) : List ReconAction :=
  match dictGet availability date with
  | none => []
  | some avail =>
    if avail.isEmpty then []
    else if (bookableOf time_slots n).any (fun s => decide (s ∈ avail)) then
      [ReconAction.book date (bookableOf time_slots n), ReconAction.calendar date]
    else []

/-- `check_book_time_slots(availability, booked, num_of_courts, email_list)`
(lines 126-138) as the list of Booking-Submitter / Calendar-Mirror calls it
makes, in order.  `email_list` is only forwarded to the calendar call and is
dropped from the model. -/
def check_book_time_slots (availability : List (String × List String))
    (booked : List (String × List (String × Nat))) (n : Nat) : List ReconAction :=
  match booked with
  | [] => []
  | (date, time_slots) :: rest =>
      perDateActions availability n date time_slots ++
        check_book_time_slots availability rest n

/-- `date.replace("-", "")` (line 150). -/
def stripDashes (s : String) : String :=
  String.mk (s.data.filter fun c => c ≠ '-')

/-- The HTTP POST payload `book_time_slots` builds (lines 148-158): the
dash-free date together with one field `time_slot ↦ "2-{time_slot}"` per
slot. -/
structure BookingPost where
  date : String
  slotFields : List (String × String)
deriving DecidableEq

/-- `book_time_slots(date, time_slots)` (lines 141-166): `none` when the
same-day guard at line 143 fires (warning, no HTTP call), otherwise the one
submission POST it performs. -/
def book_time_slots (today date : String) (time_slots : List String) :
    Option BookingPost :=
  if date = today then none
  else some ⟨stripDashes date, time_slots.map fun ts => (ts, "2-" ++ ts)⟩

/-- The digit character for `n < 10`. -/
def digitChar (n : Nat) : Char := Char.ofNat (48 + n)

/-- Two-digit zero-padded decimal, as `strftime` renders `%H` and `%M`
(both fields are `< 60` wherever the script formats them). -/
def formatTwo (n : Nat) : String :=
  if n < 10 then String.mk ['0', digitChar n]
  else String.mk [digitChar (n / 10), digitChar (n % 10)]

/-- `strftime("%H:%M")`. -/
def formatTime (h m : Nat) : String := formatTwo h ++ ":" ++ formatTwo m

/-- Decimal value of a one- or two-character digit string, as `int` reads
the fields `strptime` captures. -/
def parseTwo : List Char → Nat
  | [c] => c.toNat - 48
  | [c₁, c₂] => (c₁.toNat - 48) * 10 + (c₂.toNat - 48)
  | _ => 0

/-- Split a character list at its first `':'`. -/
def splitAtColon : List Char → List Char × List Char
  | [] => ([], [])
  | c :: cs =>
    if c = ':' then ([], cs)
    else
      let r := splitAtColon cs
      (c :: r.1, r.2)

/-- `strptime(s, "%H:%M")` reduced to its hour and minute fields. -/
def parseTime (s : String) : Nat × Nat :=
  let r := splitAtColon s.data
  (parseTwo r.1, parseTwo r.2)

/-- `int(s.split(":")[0])` (line 324). -/
def parseHour (s : String) : Nat := (parseTime s).1

/-- `strftime("%H:%M")` of `strptime(s, "%H:%M") + timedelta(hours=1)`
(lines 205-207): the hour advances mod 24, the minutes are kept. -/
def addOneHour (s : String) : String :=
  formatTime (((parseTime s).1 + 1) % 24) (parseTime s).2

/-- The loop of `get_time_slots` (lines 204-209): `k` remaining iterations,
each appending the successor hour of the previous label. -/
def get_time_slotsAux : String → Nat → List String
  | _, 0 => []
  | s, Nat.succ k =>
    let n := addOneHour s
    n :: get_time_slotsAux n k

/-- `get_time_slots(start_time, duration)` (lines 202-210).  `duration` is a
Python `int`; `range(1, duration)` has `max 0 (duration - 1)` iterations. -/
def get_time_slots (start_time : String) (duration : Int) : List String :=
  start_time :: get_time_slotsAux start_time (duration - 1).toNat

/-- A calendar effect of `generate_calendar_event`: update of an existing
event, or creation of a new one.  The event's time range is represented by
its start hour of the day and its end as hours from the start of the same
day (`end_time = start_time + timedelta(hours=duration)` at line 327 rolls
into the next day when the sum passes 24, which the plain sum captures). -/
inductive CalAction
  | update (eventId : String) (startHour endHour : Nat)
  | create (startHour endHour : Nat)
deriving DecidableEq

/-- Start hour of the event a calendar action writes. -/
def calStartHour : CalAction → Nat
  | CalAction.update _ s _ => s
  | CalAction.create s _ => s

/-- End hour (hours from the day's start) of the event written. -/
def calEndHour : CalAction → Nat
  | CalAction.update _ _ e => e
  | CalAction.create _ e => e

/-- `generate_calendar_event(date, email_list)` (lines 311-356).  The
re-fetched booked mapping for `date` (`get_booked_time_slot`, an external
scrape) enters as `time_slots` — `none` for a missing date key — and the
result of `get_badminton_event(date)` as `eventId`.  Returns the calendar
write performed, `none` when the same-day guard (line 315) or the
nothing-booked guard (line 319) returns early.  `email_list` only populates
the attendee field and is dropped from the model.  The start hour is read
from the FIRST key of the mapping (`list(time_slots.keys())[0]`, line 323)
and the duration is the number of keys. -/
def generate_calendar_event (today date : String)
    (time_slots : Option (List (String × Nat))) (eventId : Option String) :
    Option CalAction :=
  if date = today then none
  else
    match time_slots with
    | none => none
    | some ts =>
      if ts.isEmpty then none
      else
        let startHour := parseHour (ts.headD ("", 0)).1
        let duration := ts.length
        match eventId with
        | some eid => some (CalAction.update eid startHour (startHour + duration))
        | none => some (CalAction.create startHour (startHour + duration))

/-- Overwrite-or-append one key of a Python dict modelled as an association
list: the effect of `d[k] = v`. -/
def setKey (m : List (String × List String)) (k : String) (v : List String) :
    List (String × List String) :=
  if m.any (fun p => decide (p.1 = k)) then
    m.map fun p => if p.1 = k then (k, v) else p
  else m ++ [(k, v)]

/-- `availability.update(other)` (line 180): each binding of `other` is
written into `availability`. -/
def dictUpdate (m upd : List (String × List String)) : List (String × List String) :=
  upd.foldl (fun acc p => setKey acc p.1 p.2) m

/-- `get_available_slots_upto_given_days(days, time_slots)` (lines 169-182).
`w` is `today.weekday()` (Monday = 0), so `(today + i days).weekday()` is
`(w + i) % 7`; `dateStr i` is `(today + i days).strftime("%Y-%m-%d")`; and
`venue i` is the parsed venue response for that date.  Offsets whose weekday
index exceeds 4 are skipped before any query. -/
def get_available_slots_upto_given_days (days : Nat) (time_slots : List String)
    (w : Nat) (dateStr : Nat → String) (venue : Nat → List BookItem) :
    List (String × List String) :=
  (List.range days).foldl
    (fun acc i =>
      if (w + i) % 7 > 4 then acc
      else dictUpdate acc (get_available_slots (dateStr i) time_slots (venue i)))
    []

/-- A top-level call made by `book_courts_on_desired_date`: a Booking
Submitter call (`book_time_slots`) or a Calendar Mirror call
(`generate_calendar_event`). -/
inductive TopAction
  | submitCall (date : String) (slots : List String)
  | calendarCall (date : String)
deriving DecidableEq

/-- `book_courts_on_desired_date(days, time_slots, num_of_courts, email_list)`
(lines 191-199) as its ordered trace of collaborator calls: `dateStr i` is
`(today + i days).strftime("%Y-%m-%d")`, so the one computed target date is
`dateStr days`; the loop at lines 196-197 calls the submitter once per
desired court, and line 199 mirrors the date once. -/
def book_courts_on_desired_date (dateStr : Nat → String) (days : Nat)
    (time_slots : List String) (num_of_courts : Nat) : List TopAction :=
  ((List.range num_of_courts).map fun _ =>
    TopAction.submitCall (dateStr days) time_slots)
    ++ [TopAction.calendarCall (dateStr days)]

/-- Spec-side definition (not from the source): the hour of the earliest
booked slot of a date's booked mapping, the start hour §4.4 of the spec
describes ("from the earliest booked slot"); 24 on an empty mapping. -/
def earliestBookedHour (ts : List (String × Nat)) : Nat :=
  (ts.map fun p => parseHour p.1).foldr min 24

/-! ### C5 — same-day guard of the submitter and the calendar mirror -/

/-- Claim C5: for every date equal to the current date at call time, the
Booking Submitter performs no HTTP submission and the Calendar Mirror
performs no event create or update; both return without effect. -/
theorem same_day_always_refused (today date : String) (slots : List String)
    (ts : Option (List (String × Nat))) (eventId : Option String)
    (h : date = today) :
    book_time_slots today date slots = none ∧
      generate_calendar_event today date ts eventId = none := by
  subst h
  constructor
  · simp [book_time_slots]
  · simp [generate_calendar_event]

/-- Concrete instance of the C5 theorem. -/
theorem same_day_always_refused_witness :
    book_time_slots "2024-06-10" "2024-06-10" ["17:00", "18:00"] = none ∧
      generate_calendar_event "2024-06-10" "2024-06-10"
        (some [("17:00", 1)]) none = none :=
  same_day_always_refused "2024-06-10" "2024-06-10" ["17:00", "18:00"]
    (some [("17:00", 1)]) none rfl

/-! ### C10 — nonpositive duration still yields the singleton start slot -/

/-- Claim C10: for every start time and every duration ≤ 0, the Time-Slot
Generator still returns the one-element list containing exactly the start
time — its result is never empty. -/
theorem get_time_slots_nonpos (start_time : String) (duration : Int)
    (h : duration ≤ 0) : get_time_slots start_time duration = [start_time] := by
  unfold get_time_slots
  rw [show (duration - 1).toNat = 0 from Int.toNat_of_nonpos (by omega)]
  rfl

/-- Concrete instance of the C10 theorem. -/
theorem get_time_slots_nonpos_witness : get_time_slots "17:00" 0 = ["17:00"] :=
  get_time_slots_nonpos "17:00" 0 (by decide)

/-! ### C9 — the desired-date pathway submits once per court, then mirrors -/

/-- Claim C9: in the "book on a specific future day" pathway, for every
positive court count the same slot set is submitted to the Booking Submitter
exactly that many times — once per desired court — for the single computed
target date, followed by one Calendar Mirror upsert for that date. -/
theorem book_courts_on_desired_date_trace (dateStr : Nat → String) (days : Nat)
    (time_slots : List String) (num_of_courts : Nat) (h : 0 < num_of_courts) :
    book_courts_on_desired_date dateStr days time_slots num_of_courts =
      List.replicate num_of_courts
        (TopAction.submitCall (dateStr days) time_slots) ++
        [TopAction.calendarCall (dateStr days)] := by
  clear h
  unfold book_courts_on_desired_date
  congr 1
  induction num_of_courts with
  | zero => rfl
  | succ k ih =>
      rw [List.range_succ, List.map_append, ih, List.replicate_succ']
      rfl

/-- Concrete instance of the C9 theorem: two courts give two identical
submissions for the target date, then one calendar call. -/
theorem book_courts_on_desired_date_trace_witness :
    book_courts_on_desired_date (fun i => formatTwo i) 14 ["17:00", "18:00"] 2 =
      List.replicate 2 (TopAction.submitCall (formatTwo 14) ["17:00", "18:00"]) ++
        [TopAction.calendarCall (formatTwo 14)] :=
  book_courts_on_desired_date_trace (fun i => formatTwo i) 14 ["17:00", "18:00"] 2
    (by decide)

/-! ### C2 — labels stored by the Availability Fetcher -/

/-- Counterexample to claim C2 as stated: a last-free-lane item for a
requested slot is stored under the decorated label `"17:00 (last)"`, which
is not an element of the requested slot set `["17:00"]`. -/
theorem get_available_slots_last_tag_counterexample :
    dictGet (get_available_slots "2024-06-10" ["17:00"] [⟨"17:00", true⟩])
        "2024-06-10" = some ["17:00 (last)"] ∧
      "17:00 (last)" ∉ ["17:00"] := by decide

/-- Claim C2 (amended): every slot label stored in the availability mapping
returned by the Availability Fetcher is either an element of the requested
slot set, or a requested label with `" (last)"` appended (the last-free-lane
decoration of line 74). -/
theorem get_available_slots_labels (date : String) (time_slots : List String)
    (items : List BookItem) (d : String) (l : List String) (lbl : String)
    (hd : (d, l) ∈ get_available_slots date time_slots items) (hl : lbl ∈ l) :
    lbl ∈ time_slots ∨ ∃ s, s ∈ time_slots ∧ lbl = s ++ " (last)" := by
  unfold get_available_slots at hd
  split at hd
  · exact absurd hd (List.not_mem_nil _)
  · rw [List.mem_singleton, Prod.mk.injEq] at hd
    rw [hd.2] at hl
    unfold collectSlots at hl
    rw [List.mem_filterMap] at hl
    obtain ⟨it, hit, heq⟩ := hl
    by_cases hmem : it.name ∈ time_slots
    · rw [if_pos hmem] at heq
      cases hlast : it.lastFreeLane with
      | true =>
          rw [hlast] at heq
          simp only [if_pos, Option.some.injEq] at heq
          exact Or.inr ⟨it.name, hmem, heq.symm⟩
      | false =>
          rw [hlast] at heq
          simp only [if_neg, Option.some.injEq] at heq
          exact Or.inl (heq ▸ hmem)
    · rw [if_neg hmem] at heq
      exact absurd heq (by simp)

/-- Concrete instance of the amended C2 theorem, at the input of the
counterexample. -/
theorem get_available_slots_labels_witness :
    "17:00 (last)" ∈ ["17:00"] ∨
      ∃ s, s ∈ ["17:00"] ∧ "17:00 (last)" = s ++ " (last)" :=
  get_available_slots_labels "2024-06-10" ["17:00"] [⟨"17:00", true⟩]
    "2024-06-10" ["17:00 (last)"] "17:00 (last)" (by decide) (by decide)

/-! ### C6 — time range written by the Calendar Mirror -/

/-- Counterexample to claim C6 as stated: with the booked mapping listing
`18:00` before `17:00`, the event starts at hour 18 — the hour of the FIRST
key — while the earliest booked slot's hour is 17. -/
theorem generate_calendar_event_not_earliest :
    generate_calendar_event "2024-06-10" "2024-06-12"
        (some [("18:00", 1), ("17:00", 1)]) none =
        some (CalAction.create 18 20) ∧
      earliestBookedHour [("18:00", 1), ("17:00", 1)] = 17 ∧ (18 : Nat) ≠ 17 := by
  decide

/-- Claim C6 (amended): for every future date with a non-empty booked-slot
mapping, the Calendar Mirror computes the event range starting at the hour
of the FIRST listed booked slot (the first key of the mapping, which is the
earliest only when the mapping is listed chronologically) and ending exactly
count(booked slots) hours later; on a missing or empty booked mapping it
creates and updates nothing. -/
theorem generate_calendar_event_range (today date : String)
    (ts : List (String × Nat)) (eventId : Option String)
    (hne : date ≠ today) (hts : ts ≠ []) :
    (∃ a, generate_calendar_event today date (some ts) eventId = some a ∧
        calStartHour a = parseHour (ts.headD ("", 0)).1 ∧
        calEndHour a = calStartHour a + ts.length) ∧
      generate_calendar_event today date none eventId = none ∧
      generate_calendar_event today date (some []) eventId = none := by
  refine ⟨?_, ?_, ?_⟩
  · cases ts with
    | nil => exact absurd rfl hts
    | cons p rest =>
        cases eventId with
        | none =>
            refine ⟨CalAction.create (parseHour p.1)
              (parseHour p.1 + (p :: rest).length), ?_, rfl, rfl⟩
            simp [generate_calendar_event, hne]
        | some eid =>
            refine ⟨CalAction.update eid (parseHour p.1)
              (parseHour p.1 + (p :: rest).length), ?_, rfl, rfl⟩
            simp [generate_calendar_event, hne]
  · simp [generate_calendar_event, hne]
  · simp [generate_calendar_event, hne]

/-- Concrete instance of the amended C6 theorem, at the counterexample's
input. -/
theorem generate_calendar_event_range_witness :
    (∃ a, generate_calendar_event "2024-06-10" "2024-06-12"
          (some [("18:00", 1), ("17:00", 1)]) none = some a ∧
        calStartHour a =
          parseHour (([("18:00", 1), ("17:00", 1)] :
            List (String × Nat)).headD ("", 0)).1 ∧
        calEndHour a = calStartHour a +
          ([("18:00", 1), ("17:00", 1)] : List (String × Nat)).length) ∧
      generate_calendar_event "2024-06-10" "2024-06-12" none none = none ∧
      generate_calendar_event "2024-06-10" "2024-06-12" (some []) none = none :=
  generate_calendar_event_range "2024-06-10" "2024-06-12"
    [("18:00", 1), ("17:00", 1)] none (by decide) (by decide)

/-! ### C7 — the Time-Slot Generator on valid inputs -/

/-- The `%H:%M` format/parse roundtrip on the hours and minutes a
`datetime` can carry through the script. -/
theorem parseTime_formatTime :
    ∀ h < 24, ∀ m < 60, parseTime (formatTime h m) = (h, m) := by decide

/-- `strptime`-plus-one-hour-`strftime` on a well-formed label advances the
hour mod 24. -/
theorem addOneHour_formatTime (h m : Nat) (hh : h < 24) (hm : m < 60) :
    addOneHour (formatTime h m) = formatTime ((h + 1) % 24) m := by
  unfold addOneHour
  rw [parseTime_formatTime h hh m hm]

/-- The loop of `get_time_slots` produces the successor hours `h+1 … h+k`
while no wraparound occurs. -/
theorem get_time_slotsAux_formatTime (m : Nat) (hm : m < 60) :
    ∀ (k h : Nat), h + k < 24 →
      get_time_slotsAux (formatTime h m) k =
        (List.range k).map fun i => formatTime (h + 1 + i) m := by
  intro k
  induction k with
  | zero => intro h _; rfl
  | succ k ih =>
      intro h hk
      rw [show get_time_slotsAux (formatTime h m) (k + 1) =
          addOneHour (formatTime h m) ::
            get_time_slotsAux (addOneHour (formatTime h m)) k from rfl]
      rw [addOneHour_formatTime h m (by omega) hm,
        Nat.mod_eq_of_lt (show h + 1 < 24 by omega)]
      rw [ih (h + 1) (by omega), List.range_succ_eq_map]
      simp only [List.map_cons, List.map_map]
      congr 1
      apply List.map_congr_left
      intro i _
      simp only [Function.comp, Nat.succ_eq_add_one]
      rw [show h + 1 + 1 + i = h + 1 + (i + 1) by omega]

/-- Claim C7: for every well-formed start time `HH:MM` and every positive
duration ≤ 24 − start hour, the Time-Slot Generator returns exactly
`duration` labels formatted `HH:MM`, the first equal to the start time and
each consecutive one exactly one hour later (the `i`-th label is hour
`h + i`). -/
theorem get_time_slots_correct (h m d : Nat) (hh : h < 24) (hm : m < 60)
    (hd : 0 < d) (hle : d ≤ 24 - h) :
    get_time_slots (formatTime h m) (d : Int) =
      (List.range d).map fun i => formatTime (h + i) m := by
  obtain ⟨e, rfl⟩ : ∃ e, d = e + 1 := ⟨d - 1, by omega⟩
  unfold get_time_slots
  rw [show (((e + 1 : Nat) : Int) - 1).toNat = e by omega]
  rw [get_time_slotsAux_formatTime m hm e h (by omega), List.range_succ_eq_map]
  simp only [List.map_cons, List.map_map]
  congr 1
  apply List.map_congr_left
  intro i _
  simp only [Function.comp, Nat.succ_eq_add_one]
  rw [show h + 1 + i = h + (i + 1) by omega]

/-- Concrete instance of the C7 theorem: start `17:00`, duration 2. -/
theorem get_time_slots_correct_witness :
    get_time_slots (formatTime 17 0) ((2 : Nat) : Int) =
        ((List.range 2).map fun i => formatTime (17 + i) 0) ∧
      get_time_slots "17:00" 2 = ["17:00", "18:00"] :=
  ⟨get_time_slots_correct 17 0 2 (by decide) (by decide) (by decide) (by decide),
    by decide⟩

/-! ### Helper lemmas about the reconciliation engine -/

/-- The engine's loop distributes over concatenation of the `booked`
entries. -/
theorem check_book_time_slots_append (availability : List (String × List String))
    (n : Nat) :
    ∀ (b₁ b₂ : List (String × List (String × Nat))),
      check_book_time_slots availability (b₁ ++ b₂) n =
        check_book_time_slots availability b₁ n ++
          check_book_time_slots availability b₂ n := by
  intro b₁
  induction b₁ with
  | nil => intro b₂; rfl
  | cons p rest ih =>
      intro b₂
      cases p with
      | mk d ts =>
          show perDateActions availability n d ts ++
              check_book_time_slots availability (rest ++ b₂) n =
            (perDateActions availability n d ts ++
              check_book_time_slots availability rest n) ++
              check_book_time_slots availability b₂ n
          rw [ih, List.append_assoc]

/-- Any action a single `booked` entry emits names that entry's date, comes
from a `some` availability lookup, and requires some deficit slot to be in
the available list (the any-match gate). -/
theorem mem_perDateActions {availability : List (String × List String)}
    {n : Nat} {date : String} {ts : List (String × Nat)} {a : ReconAction}
    (h : a ∈ perDateActions availability n date ts) :
    (a = ReconAction.book date (bookableOf ts n) ∨
        a = ReconAction.calendar date) ∧
      ∃ avail, dictGet availability date = some avail ∧
        ∃ s, s ∈ bookableOf ts n ∧ s ∈ avail := by
  unfold perDateActions at h
  split at h
  · exact absurd h (List.not_mem_nil _)
  · rename_i avail heq
    split at h
    · exact absurd h (List.not_mem_nil _)
    · split at h
      · rename_i hany
        obtain ⟨s, hs, hdec⟩ := List.any_eq_true.mp hany
        refine ⟨?_, avail, heq, s, hs, of_decide_eq_true hdec⟩
        simpa using h
      · exact absurd h (List.not_mem_nil _)

/-- Any action the engine emits belongs to some `booked` entry, carries that
entry's date, and witnesses a deficit slot present in that date's available
list. -/
theorem mem_check_book_time_slots {availability : List (String × List String)}
    {n : Nat} {a : ReconAction} :
    ∀ {booked : List (String × List (String × Nat))},
      a ∈ check_book_time_slots availability booked n →
      ∃ date ts, (date, ts) ∈ booked ∧ reconDate a = date ∧
        (a = ReconAction.book date (bookableOf ts n) ∨
          a = ReconAction.calendar date) ∧
        ∃ avail, dictGet availability date = some avail ∧
          ∃ s, s ∈ bookableOf ts n ∧ s ∈ avail := by
  intro booked
  induction booked with
  | nil => intro h; exact absurd h (List.not_mem_nil _)
  | cons p rest ih =>
      intro h
      cases p with
      | mk d ts' =>
          rw [show check_book_time_slots availability ((d, ts') :: rest) n =
              perDateActions availability n d ts' ++
                check_book_time_slots availability rest n from rfl,
            List.mem_append] at h
          rcases h with h | h
          · obtain ⟨hshape, hav⟩ := mem_perDateActions h
            refine ⟨d, ts', List.mem_cons_self _ _, ?_, hshape, hav⟩
            rcases hshape with rfl | rfl <;> rfl
          · obtain ⟨date, ts, hmem, hrest⟩ := ih h
            exact ⟨date, ts, List.mem_cons_of_mem _ hmem, hrest⟩

/-- In a dict (keys without duplicates) a key determines its value. -/
theorem dict_value_unique {β : Type} :
    ∀ {l : List (String × β)} {k : String} {v₁ v₂ : β},
      (l.map Prod.fst).Nodup → (k, v₁) ∈ l → (k, v₂) ∈ l → v₁ = v₂ := by
  intro l
  induction l with
  | nil => intro k v₁ v₂ _ h; exact absurd h (List.not_mem_nil _)
  | cons p rest ih =>
      intro k v₁ v₂ hnd h₁ h₂
      rw [List.map_cons, List.nodup_cons] at hnd
      rcases List.mem_cons.mp h₁ with h₁ | h₁ <;>
        rcases List.mem_cons.mp h₂ with h₂ | h₂
      · exact congrArg Prod.snd (h₁.trans h₂.symm)
      · exfalso
        apply hnd.1
        rw [show p.1 = k by rw [← h₁]]
        exact List.mem_map_of_mem Prod.fst h₂
      · exfalso
        apply hnd.1
        rw [show p.1 = k by rw [← h₂]]
        exact List.mem_map_of_mem Prod.fst h₁
      · exact ih hnd.2 h₁ h₂

/-! ### C1 — any-match gate submits the full deficit list -/

/-- Claim C1: for every `booked` entry whose deficit-slot list meets that
date's availability, the engine submits exactly the full deficit list —
`bookableOf time_slots n`, not its intersection with the available list —
and follows it immediately with the Calendar Mirror call for the date. -/
theorem check_submits_full_deficit
    (availability : List (String × List String))
    (booked : List (String × List (String × Nat))) (n : Nat) (hn : 0 < n)
    (date : String) (time_slots : List (String × Nat))
    (hmem : (date, time_slots) ∈ booked)
    (s : String) (hs : s ∈ bookableOf time_slots n)
    (avail : List String) (hget : dictGet availability date = some avail)
    (hsav : s ∈ avail) :
    ∃ l₁ l₂, check_book_time_slots availability booked n =
      l₁ ++ ReconAction.book date (bookableOf time_slots n) ::
        ReconAction.calendar date :: l₂ := by
  obtain ⟨b₁, b₂, rfl⟩ := List.append_of_mem hmem
  refine ⟨check_book_time_slots availability b₁ n,
    check_book_time_slots availability b₂ n, ?_⟩
  have hempty : avail.isEmpty = false := by
    cases avail with
    | nil => exact absurd hsav (List.not_mem_nil _)
    | cons x t => rfl
  have hany : (bookableOf time_slots n).any (fun x => decide (x ∈ avail)) = true :=
    List.any_eq_true.mpr ⟨s, hs, decide_eq_true hsav⟩
  rw [check_book_time_slots_append]
  rw [show check_book_time_slots availability ((date, time_slots) :: b₂) n =
      perDateActions availability n date time_slots ++
        check_book_time_slots availability b₂ n from rfl]
  have hper : perDateActions availability n date time_slots =
      [ReconAction.book date (bookableOf time_slots n),
        ReconAction.calendar date] := by
    simp [perDateActions, hget, hempty, hany]
  rw [hper]
  rfl

/-- Concrete instance of the C1 theorem: the spec's own §8 example — deficit
`[17:00, 18:00]`, only `18:00` free, both submitted. -/
theorem check_submits_full_deficit_witness :
    ∃ l₁ l₂,
      check_book_time_slots [("2024-06-10", ["18:00"])]
          [("2024-06-10", [("17:00", 1), ("18:00", 1)])] 2 =
        l₁ ++ ReconAction.book "2024-06-10"
            (bookableOf [("17:00", 1), ("18:00", 1)] 2) ::
          ReconAction.calendar "2024-06-10" :: l₂ :=
  check_submits_full_deficit [("2024-06-10", ["18:00"])]
    [("2024-06-10", [("17:00", 1), ("18:00", 1)])] 2 (by decide)
    "2024-06-10" [("17:00", 1), ("18:00", 1)] (by decide)
    "18:00" (by decide) ["18:00"] (by decide) (by decide)

/-! ### C3 — dates absent from availability are never touched -/

/-- Claim C3: the engine never emits a booking submission or a calendar
upsert for a date with no entry in the availability mapping. -/
theorem check_skips_missing_availability
    (availability : List (String × List String))
    (booked : List (String × List (String × Nat))) (n : Nat) (date : String)
    (hnone : dictGet availability date = none) :
    (∀ slots, ReconAction.book date slots ∉
        check_book_time_slots availability booked n) ∧
      ReconAction.calendar date ∉
        check_book_time_slots availability booked n := by
  have key : ∀ a : ReconAction, reconDate a = date →
      a ∉ check_book_time_slots availability booked n := by
    intro a hdate hmem
    obtain ⟨d, ts, _, hd, _, avail, hget, _⟩ := mem_check_book_time_slots hmem
    rw [hdate] at hd
    rw [← hd, hnone] at hget
    exact Option.noConfusion hget
  exact ⟨fun slots => key (ReconAction.book date slots) rfl,
    key (ReconAction.calendar date) rfl⟩

/-- Concrete instance of the C3 theorem: empty availability, a date with a
deficit gets neither submission nor upsert. -/
theorem check_skips_missing_availability_witness :
    ReconAction.book "2024-06-10" ["17:00"] ∉
        check_book_time_slots [] [("2024-06-10", [("17:00", 0)])] 2 ∧
      ReconAction.calendar "2024-06-10" ∉
        check_book_time_slots [] [("2024-06-10", [("17:00", 0)])] 2 :=
  ⟨(check_skips_missing_availability [] [("2024-06-10", [("17:00", 0)])] 2
      "2024-06-10" rfl).1 ["17:00"],
    (check_skips_missing_availability [] [("2024-06-10", [("17:00", 0)])] 2
      "2024-06-10" rfl).2⟩

/-! ### C4 — no-deficit dates are never touched -/

/-- Claim C4: for a `booked` date whose every slot count already reaches the
target, the engine emits no submission and no calendar upsert for that date,
whatever the availability holds. -/
theorem check_no_deficit_untouched
    (availability : List (String × List String))
    (booked : List (String × List (String × Nat))) (n : Nat) (hn : 0 < n)
    (date : String) (time_slots : List (String × Nat))
    (hnodup : (booked.map Prod.fst).Nodup)
    (hmem : (date, time_slots) ∈ booked)
    (hfull : ∀ p ∈ time_slots, n ≤ p.2) :
    (∀ slots, ReconAction.book date slots ∉
        check_book_time_slots availability booked n) ∧
      ReconAction.calendar date ∉
        check_book_time_slots availability booked n := by
  have hempty : bookableOf time_slots n = [] := by
    unfold bookableOf
    rw [List.filter_eq_nil_iff.mpr]
    · rfl
    · intro p hp
      simpa using Nat.not_lt.mpr (hfull p hp)
  have key : ∀ a : ReconAction, reconDate a = date →
      a ∉ check_book_time_slots availability booked n := by
    intro a hdate hmem'
    obtain ⟨d, ts', hmem'', hd, _, _, _, s, hsb, _⟩ :=
      mem_check_book_time_slots hmem'
    rw [hdate] at hd
    rw [← hd] at hmem''
    rw [dict_value_unique hnodup hmem'' hmem] at hsb
    rw [hempty] at hsb
    exact absurd hsb (List.not_mem_nil _)
  exact ⟨fun slots => key (ReconAction.book date slots) rfl,
    key (ReconAction.calendar date) rfl⟩

/-- Concrete instance of the C4 theorem: the spec's §8 second example — all
counts at target, availability full, nothing happens for the date. -/
theorem check_no_deficit_untouched_witness :
    ReconAction.book "2024-06-11" ["17:00", "18:00"] ∉
        check_book_time_slots [("2024-06-11", ["17:00", "18:00"])]
          [("2024-06-11", [("17:00", 2), ("18:00", 2)])] 2 ∧
      ReconAction.calendar "2024-06-11" ∉
        check_book_time_slots [("2024-06-11", ["17:00", "18:00"])]
          [("2024-06-11", [("17:00", 2), ("18:00", 2)])] 2 :=
  ⟨(check_no_deficit_untouched [("2024-06-11", ["17:00", "18:00"])]
      [("2024-06-11", [("17:00", 2), ("18:00", 2)])] 2 (by decide)
      "2024-06-11" [("17:00", 2), ("18:00", 2)] (by decide) (by decide)
      (by decide)).1 ["17:00", "18:00"],
    (check_no_deficit_untouched [("2024-06-11", ["17:00", "18:00"])]
      [("2024-06-11", [("17:00", 2), ("18:00", 2)])] 2 (by decide)
      "2024-06-11" [("17:00", 2), ("18:00", 2)] (by decide) (by decide)
      (by decide)).2⟩

/-! ### C8 — the availability window contains no weekend date -/

/-- Keys of `setKey m k v` are `k` or keys of `m`. -/
theorem mem_setKey {m : List (String × List String)} {k k' : String}
    {v v' : List String} (h : (k', v') ∈ setKey m k v) :
    k' = k ∨ ∃ u, (k', u) ∈ m := by
  unfold setKey at h
  split at h
  · rw [List.mem_map] at h
    obtain ⟨p, hp, heq⟩ := h
    by_cases hpk : p.1 = k
    · rw [if_pos hpk] at heq
      exact Or.inl (congrArg Prod.fst heq.symm)
    · rw [if_neg hpk] at heq
      exact Or.inr ⟨v', heq ▸ hp⟩
  · rw [List.mem_append, List.mem_singleton] at h
    rcases h with h | h
    · exact Or.inr ⟨v', h⟩
    · exact Or.inl (congrArg Prod.fst h)

/-- Keys of `dictUpdate m upd` are keys of `m` or keys of `upd`. -/
theorem mem_dictUpdate {k' : String} {v' : List String} :
    ∀ {upd m : List (String × List String)}, (k', v') ∈ dictUpdate m upd →
      (∃ u, (k', u) ∈ m) ∨ ∃ u, (k', u) ∈ upd := by
  intro upd
  induction upd with
  | nil => intro m h; exact Or.inl ⟨v', h⟩
  | cons p rest ih =>
      intro m h
      rcases ih h with hkey | ⟨u, hu⟩
      · obtain ⟨u, hu⟩ := hkey
        rcases mem_setKey hu with heq | ⟨u', hu'⟩
        · refine Or.inr ⟨p.2, ?_⟩
          rw [heq]
          exact List.mem_cons_self _ _
        · exact Or.inl ⟨u', hu'⟩
      · exact Or.inr ⟨u, List.mem_cons_of_mem _ hu⟩

/-- The dict `get_available_slots` returns has no key besides the queried
date. -/
theorem get_available_slots_key {date k : String} {time_slots : List String}
    {items : List BookItem} {v : List String}
    (h : (k, v) ∈ get_available_slots date time_slots items) : k = date := by
  unfold get_available_slots at h
  split at h
  · exact absurd h (List.not_mem_nil _)
  · rw [List.mem_singleton] at h
    exact congrArg Prod.fst h

/-- Invariant of the lookahead loop: any key of the accumulated availability
was a key of the accumulator or is the date string of a processed,
non-weekend offset. -/
theorem avail_window_keys (time_slots : List String) (w : Nat)
    (dateStr : Nat → String) (venue : Nat → List BookItem) :
    ∀ (L : List Nat) (acc : List (String × List String)) (k : String)
      (v : List String),
      (k, v) ∈ L.foldl
        (fun acc i =>
          if (w + i) % 7 > 4 then acc
          else dictUpdate acc
            (get_available_slots (dateStr i) time_slots (venue i)))
        acc →
      (∃ u, (k, u) ∈ acc) ∨ ∃ i, i ∈ L ∧ (w + i) % 7 ≤ 4 ∧ k = dateStr i := by
  intro L
  induction L with
  | nil => intro acc k v h; exact Or.inl ⟨v, h⟩
  | cons x L ih =>
      intro acc k v h
      rw [List.foldl_cons] at h
      rcases ih _ k v h with ⟨u, hu⟩ | ⟨i, hiL, hle, hk⟩
      · by_cases hx : (w + x) % 7 > 4
        · rw [if_pos hx] at hu
          exact Or.inl ⟨u, hu⟩
        · rw [if_neg hx] at hu
          rcases mem_dictUpdate hu with ⟨u', hu'⟩ | ⟨u', hu'⟩
          · exact Or.inl ⟨u', hu'⟩
          · exact Or.inr ⟨x, List.mem_cons_self _ _, by omega,
              get_available_slots_key hu'⟩
      · exact Or.inr ⟨i, List.mem_cons_of_mem _ hiL, hle, hk⟩

/-- Claim C8: every date key of the availability mapping built by
`get_available_slots_upto_given_days` comes from an offset inside the
window whose weekday index `(w + i) % 7` (Monday = 0, `w` today's weekday)
is at most 4 — Saturdays and Sundays are skipped before any query. -/
theorem avail_window_no_weekend (days : Nat) (time_slots : List String)
    (w : Nat) (dateStr : Nat → String) (venue : Nat → List BookItem)
    (hw : w < 7) (k : String) (v : List String)
    (hk : (k, v) ∈
      get_available_slots_upto_given_days days time_slots w dateStr venue) :
    ∃ i, i < days ∧ (w + i) % 7 ≤ 4 ∧ k = dateStr i := by
  have := avail_window_keys time_slots w dateStr venue (List.range days) [] k v hk
  rcases this with ⟨u, hu⟩ | ⟨i, hiL, hle, hkd⟩
  · exact absurd hu (List.not_mem_nil _)
  · exact ⟨i, List.mem_range.mp hiL, hle, hkd⟩

/-- Concrete instance of the C8 theorem: a 3-day window starting on a
Friday (weekday 4) only ever holds the Friday key. -/
theorem avail_window_no_weekend_witness :
    ∃ i, i < 3 ∧ (4 + i) % 7 ≤ 4 ∧ "00" = formatTwo i :=
  avail_window_no_weekend 3 ["17:00"] 4 (fun i => formatTwo i)
    (fun _ => [⟨"17:00", false⟩]) (by decide) "00" ["17:00"] (by decide)

end Badminton
